import Mathlib

/-!
Verification of the RagFlow knowledge-ingestion-and-retrieval pipeline.

Shallow embedding of the core services:
* `services/chunker.py`          — `Chunker` (text cleaning, separator split, character split)
* `services/embedding.py`        — `SentenceTransformerEmbedding.embed_batch`
* `services/vector_store.py`     — `FAISSVectorStore` (load/save/add/search/delete)
* `services/qa_service.py`       — `QAService.ask` (threshold routing, sources, logging)
* `services/retriever.py`        — `Retriever.retrieve` (its call signature)
* `services/knowledge_builder.py`— `KnowledgeBuilder.build_knowledge_from_content`

Texts are `List Char` where character-level structure matters (the chunker) and
`String` elsewhere.  Machine floats are modelled as `ℚ`; the FAISS L2
normalization divides by a real square root, so it is kept as an abstract
parameter `normalize : Vec → Vec` — every theorem below holds for an arbitrary
normalization function, hence in particular for the real one.
-/

namespace RagFlow

/-! ### Chunker (`services/chunker.py`) -/

/-- Python's default whitespace set for `str.strip` (the ASCII part, which is
all the pipeline ever feeds it). -/
def pySpace (c : Char) : Bool :=
  c = ' ' || c = '\t' || c = '\n' || c = '\r' || c = '\x0b' || c = '\x0c'

/-- Python `s.strip()` on a list of characters. -/
def pyStrip (l : List Char) : List Char :=
  ((l.dropWhile pySpace).reverse.dropWhile pySpace).reverse

/-- Helper for `re.sub(r"\n\x7b3,\x7d", "\n\n", text)`: keep at most the first
two newlines of every maximal newline run (`run` counts the newlines emitted in
the current run). -/
def collapseNLAux : Nat → List Char → List Char
  | _, [] => []
  | run, c :: rest =>
    if c = '\n' then
      if run ≥ 2 then collapseNLAux (run + 1) rest
      else '\n' :: collapseNLAux (run + 1) rest
    else c :: collapseNLAux 0 rest

/-- `re.sub(r"\n\x7b3,\x7d", "\n\n", text)`: each maximal run of three or more
newlines is replaced by exactly two. -/
def collapseNewlines (l : List Char) : List Char :=
  collapseNLAux 0 l

/-- `Chunker._clean_text`: collapse 3+ newlines to 2, strip every line, join
the lines with a newline, strip the whole text. -/
def cleanText (l : List Char) : List Char :=
  pyStrip (List.intercalate ['\n'] (((collapseNewlines l).splitOn '\n').map pyStrip))

/-- Configuration of `Chunker.__init__` (`chunk_size`, `chunk_overlap`,
`separator`; the repository defaults are 500, 50, `"\n\n"`). -/
structure ChunkerConfig where
  chunk_size : Nat
  chunk_overlap : Nat
  separator : List Char
deriving DecidableEq, Repr

/-- The `Chunk` dataclass of `services/chunker.py`. -/
structure Chunk where
  index : Nat
  text : List Char
  start_pos : Nat
  end_pos : Nat
deriving DecidableEq, Repr

set_option linter.unusedVariables false in
/-- Python `text.split(sep)` for a non-empty separator `sep` (leftmost,
non-overlapping matches; `acc` is the current piece, reversed). -/
def splitOnSubAux (sep : List Char) : List Char → List Char → List (List Char)
  | acc, [] => [acc.reverse]
  | acc, c :: rest =>
    if h : sep ≠ [] ∧ sep.isPrefixOf (c :: rest) then
      acc.reverse :: splitOnSubAux sep [] ((c :: rest).drop sep.length)
    else
      splitOnSubAux sep (c :: acc) rest
termination_by _ l => l.length
decreasing_by
  · have hsep : 1 ≤ sep.length := by
      cases sep with
      | nil => exact absurd rfl h.1
      | cons a t => exact Nat.succ_le_succ (Nat.zero_le _)
    simp only [List.length_drop, List.length_cons]
    omega
  · simp only [List.length_cons]
    omega

/-- Python `text.split(sep)` (`sep` is always `"\n\n"` in the repository, so
the empty-separator `ValueError` path never arises; it is rendered as `[l]`). -/
def splitOnSub (sep l : List Char) : List (List Char) :=
  if sep = [] then [l] else splitOnSubAux sep [] l

/-- Loop body of `Chunker._chunk_by_separator`: greedily pack stripped parts
into `current_chunk`, emitting a chunk (and keeping the trailing
`chunk_overlap` characters) whenever the next part would overflow
`chunk_size`. -/
def chunkBySepGo (cfg : ChunkerConfig) :
    List (List Char) → List Char → Nat → Nat → List Chunk
  | [], current_chunk, current_start, chunk_index =>
    if pyStrip current_chunk ≠ [] then
      [⟨chunk_index, pyStrip current_chunk, current_start,
        current_start + current_chunk.length⟩]
    else []
  | part :: rest, current_chunk, current_start, chunk_index =>
    let part := pyStrip part
    if part = [] then
      chunkBySepGo cfg rest current_chunk current_start chunk_index
    else if current_chunk.length + part.length > cfg.chunk_size ∧ current_chunk ≠ [] then
      let emitted : Chunk :=
        ⟨chunk_index, pyStrip current_chunk, current_start,
         current_start + current_chunk.length⟩
      let overlap_start := current_chunk.length - cfg.chunk_overlap
      emitted :: chunkBySepGo cfg rest
        ((current_chunk.drop overlap_start) ++ part ++ cfg.separator)
        (current_start + overlap_start) (chunk_index + 1)
    else
      chunkBySepGo cfg rest (current_chunk ++ part ++ cfg.separator)
        current_start chunk_index

/-- `Chunker._chunk_by_separator`. -/
def chunkBySeparator (cfg : ChunkerConfig) (text : List Char) : List Chunk :=
  chunkBySepGo cfg (splitOnSub cfg.separator text) [] 0 0

/-- The sentence-ending marks the character splitter looks for:
`["。", "！", "？", ".", "!", "?", "\n"]`. -/
def sentencePunct (c : Char) : Bool :=
  c = '。' || c = '！' || c = '？' || c = '.' || c = '!' || c = '?' || c = '\n'

/-- The scan `for i in range(end, lo, -1): if text[i] in punct: ...` of
`Chunker._chunk_by_characters`: walk `i` downward, stop once `i ≤ lo`
(`range` excludes its stop value), answer the first index holding a
sentence-ending mark. -/
def findCutAux (text : List Char) (lo : Nat) : Nat → Option Nat
  | 0 => none
  | i + 1 =>
    if i + 1 ≤ lo then none
    else if sentencePunct (text.getD (i + 1) ' ') then some (i + 1)
    else findCutAux text lo i

/-- Stop value of the backward scan:
`max(start + self.chunk_size // 2, end - 100)`. -/
def scanLow (cfg : ChunkerConfig) (start e : Nat) : Nat :=
  max (start + cfg.chunk_size / 2) (e - 100)

/-- One cut-point computation of `Chunker._chunk_by_characters`: the fixed
width `start + chunk_size`, adjusted backward to just past a sentence-ending
mark when the bounded scan finds one (only when the cut is not at the end of
the text). -/
def cutEnd (cfg : ChunkerConfig) (text : List Char) (start : Nat) : Nat :=
  let e := start + cfg.chunk_size
  if e < text.length then
    match findCutAux text (scanLow cfg start e) e with
    | some i => i + 1
    | none => e
  else e

/-- Python slice `text[start:e]` for `0 ≤ start ≤ e`. -/
def sliceList (text : List Char) (start e : Nat) : List Char :=
  (text.drop start).take (e - start)

/-- The `while start < len(text)` loop of `Chunker._chunk_by_characters`,
with explicit fuel (the source loop advances `start` by at least one
character per iteration for every configuration the repository uses, so
`text.length + 1` units of fuel are enough; for configurations where
`chunk_overlap` exceeds the advance the Python loop does not terminate). -/
def chunkByCharsGo (cfg : ChunkerConfig) (text : List Char) :
    Nat → Nat → Nat → List Chunk
  | 0, _, _ => []
  | fuel + 1, start, chunk_index =>
    if start < text.length then
      let e := cutEnd cfg text start
      ⟨chunk_index, pyStrip (sliceList text start e), start, e⟩
        :: chunkByCharsGo cfg text fuel (e - cfg.chunk_overlap) (chunk_index + 1)
    else []

/-- `Chunker._chunk_by_characters`. -/
def chunkByCharacters (cfg : ChunkerConfig) (text : List Char) : List Chunk :=
  chunkByCharsGo cfg text (text.length + 1) 0 0

/-- `Chunker.chunk`: empty/whitespace-only input yields `[]`; cleaned text no
longer than `chunk_size` yields a single chunk; otherwise split on the
separator, falling back to the character split when that produces at most one
block. -/
def chunk (cfg : ChunkerConfig) (text : List Char) : List Chunk :=
  if text = [] ∨ pyStrip text = [] then []
  else
    let t := cleanText text
    if t.length ≤ cfg.chunk_size then [⟨0, t, 0, t.length⟩]
    else
      let cs := chunkBySeparator cfg t
      if cs = [] ∨ cs.length = 1 then chunkByCharacters cfg t else cs

/-! ### Embedding port (`services/embedding.py`) -/

/-- Python truthiness of `t and t.strip()` is the negation of this: a string
is "blank" when it is empty or whitespace-only. -/
def pyBlank (s : String) : Bool :=
  s.data.all pySpace

/-- The loaded sentence-transformer model, reduced to what
`SentenceTransformerEmbedding` reads from it: its `dimension` and its
`encode` on a batch of texts (one vector per encoded text). -/
structure EmbeddingModelSpec where
  dimension : Nat
  encode : List String → List (List ℚ)

/-- `SentenceTransformerEmbedding.embed_batch`: `[]` for no texts; all texts
blank gives one zero vector per text; otherwise the blank texts are filtered
out and only the remaining ones are encoded. -/
def embed_batch (m : EmbeddingModelSpec) (texts : List String) : List (List ℚ) :=
  if texts = [] then []
  else
    let valid_texts := texts.filter (fun t => !(pyBlank t))
    if valid_texts = [] then
      List.replicate texts.length (List.replicate m.dimension 0)
    else
      m.encode valid_texts

/-! ### Vector index (`services/vector_store.py`)

`FAISSVectorStore` keeps an in-memory pair (FAISS index, metadata list) plus
two companion files on disk.  The FAISS `IndexFlatIP` is modelled as the list
of stored vectors in insertion order; `normalize_L2` is an abstract
`normalize` parameter (its real definition divides by an irrational norm;
nothing proved below depends on it). -/

/-- An embedding vector. -/
abbrev Vec := List ℚ

/-- A metadata dict passed into `add_documents`
(`document_id`, `chunk_index`, `chunk_text`). -/
structure VDocIn where
  document_id : Int
  chunk_index : Int
  chunk_text : String
deriving DecidableEq, Repr

/-- A stored metadata entry of `self.documents`: the input dict plus the
assigned `id`. -/
structure VDoc where
  id : Nat
  document_id : Int
  chunk_index : Int
  chunk_text : String
deriving DecidableEq, Repr

/-- The `SearchResult` dataclass of `services/vector_store.py`. -/
structure SearchResult where
  chunk_id : Int
  document_id : Int
  chunk_index : Int
  chunk_text : String
  similarity : ℚ
deriving DecidableEq, Repr

/-- A persisted companion file: missing, unreadable (with a zero-size flag —
`_load_index` checks `st_size == 0` before attempting the read), or a
successfully deserializable value (written files are never zero bytes). -/
inductive PFile (α : Type) where
  | absent
  | corrupt (zeroSize : Bool)
  | good (val : α)
deriving DecidableEq

/-- The two companion artifacts `index.faiss` and `documents.pkl`. -/
structure Disk where
  indexFile : PFile (List Vec)
  docsFile : PFile (List VDoc)
deriving DecidableEq

/-- In-memory state: `self.index` (None before any add / after
`_init_index`) and `self.documents`. -/
structure MemState where
  index : Option (List Vec)
  documents : List VDoc
deriving DecidableEq

/-- A `FAISSVectorStore` instance: in-memory state plus the persisted files. -/
structure Store where
  mem : MemState
  disk : Disk
deriving DecidableEq

/-- `_init_index`: `self.index = None; self.documents = []`. -/
def initMem : MemState := ⟨none, []⟩

/-- `Path.exists()` for a companion file. -/
def pfilePresent {α : Type} : PFile α → Bool
  | .absent => false
  | _ => true

/-- `stat().st_size == 0` for a companion file. -/
def pfileZeroSize {α : Type} : PFile α → Bool
  | .corrupt z => z
  | _ => false

/-- `faiss.read_index` / `pickle.load`: succeeds on a good file, raises on a
corrupt one (the `absent` case is guarded by `exists()` before any read). -/
def pfileRead {α : Type} : PFile α → Except String α
  | .good v => .ok v
  | _ => .error "deserialization failed"

/-- `FAISSVectorStore._load_index`: if both files exist, reject zero-byte
files, then try to read both, falling back to `_init_index` when either read
raises; otherwise `_init_index`.  Every failure branch is caught, so the
loader is a total function. -/
def loadIndex (d : Disk) : MemState :=
  if pfilePresent d.indexFile && pfilePresent d.docsFile then
    if pfileZeroSize d.indexFile || pfileZeroSize d.docsFile then initMem
    else
      match pfileRead d.indexFile, pfileRead d.docsFile with
      | .ok vecs, .ok docs => ⟨some vecs, docs⟩
      | _, _ => initMem
  else initMem

/-- `FAISSVectorStore._save_index`: returns immediately when `self.index` is
None, otherwise writes both companion files. -/
def saveIndex (s : Store) : Store :=
  match s.mem.index with
  | none => s
  | some vecs => ⟨s.mem, ⟨.good vecs, .good s.mem.documents⟩⟩

/-- The `for i, doc in enumerate(documents)` loop of `add_documents`: entry
`i` gets id `start + i`. -/
def withIds (start : Nat) : List VDocIn → List VDoc
  | [] => []
  | d :: rest => ⟨start, d.document_id, d.chunk_index, d.chunk_text⟩ :: withIds (start + 1) rest

/-- `FAISSVectorStore.add_documents`: no-op on an empty documents or
embeddings list; otherwise normalize and append the vectors (creating the
index when it is None), append the metadata with ids starting at
`len(self.documents)`, and save. -/
def addDocuments (normalize : Vec → Vec) (s : Store)
    (docs : List VDocIn) (embs : List Vec) : Store :=
  if docs = [] ∨ embs = [] then s
  else
    let new_index := s.mem.index.getD [] ++ embs.map normalize
    let start_id := s.mem.documents.length
    let new_documents := s.mem.documents ++ withIds start_id docs
    saveIndex ⟨⟨some new_index, new_documents⟩, s.disk⟩

/-- Inner product of two stored vectors (`IndexFlatIP` comparison). -/
def dot : Vec → Vec → ℚ
  | [], _ => 0
  | _, [] => 0
  | a :: as, b :: bs => a * b + dot as bs

/-- Index/score pairs for the stored vectors, in storage order. -/
def enumFromQ (n : Nat) : List ℚ → List (Nat × ℚ)
  | [] => []
  | s :: rest => (n, s) :: enumFromQ (n + 1) rest

/-- Stable insertion into a list sorted by descending score (ties keep the
earlier — lower-index — entry first, matching the deterministic order FAISS
returns). -/
def insertByDesc (p : Nat × ℚ) : List (Nat × ℚ) → List (Nat × ℚ)
  | [] => [p]
  | q :: rest => if q.2 ≤ p.2 then p :: q :: rest else q :: insertByDesc p rest

/-- Stable sort by descending score. -/
def sortDesc : List (Nat × ℚ) → List (Nat × ℚ)
  | [] => []
  | p :: rest => insertByDesc p (sortDesc rest)

/-- `self.index.search(query, top_k)`: the `top_k` best (index, similarity)
pairs by descending inner product; when fewer than `top_k` vectors are stored
the remaining slots are the `-1` padding entries, which the result-assembly
loop skips, so they are simply absent here. -/
def indexSearch (vecs : List Vec) (qn : Vec) (k : Nat) : List (Nat × ℚ) :=
  (sortDesc (enumFromQ 0 (vecs.map (fun v => dot v qn)))).take k

/-- Result assembly of `FAISSVectorStore.search` from an in-memory state:
skip hits whose position is outside `self.documents` (and the `-1` padding);
`document_id` is an integer in this model, so the `int()` coercion always
succeeds and the coercion-failure `continue` branch is not taken. -/
def searchMem (normalize : Vec → Vec) (m : MemState) (q : Vec) (k : Nat) :
    List SearchResult :=
  match m.index with
  | none => []
  | some vecs =>
    if vecs.length = 0 then []
    else
      (indexSearch vecs (normalize q) k).filterMap (fun p =>
        match m.documents[p.1]? with
        | none => none
        | some doc =>
          some ⟨Int.ofNat doc.id, doc.document_id, doc.chunk_index, doc.chunk_text, p.2⟩)

/-- `FAISSVectorStore.search`: reload the persisted index first
(`self._load_index()`), then search the freshly loaded state; returns the
results and the store as mutated by the reload. -/
def search (normalize : Vec → Vec) (s : Store) (q : Vec) (k : Nat) :
    List SearchResult × Store :=
  let mem := loadIndex s.disk
  (searchMem normalize mem q k, ⟨mem, s.disk⟩)

/-- `FAISSVectorStore.delete_by_document_id`: compute the surviving entries;
if nothing matched, return; otherwise `_init_index()` then `_save_index()`.
The source discards `new_documents` after the length comparison, and the save
is a no-op because `_init_index` has just set `self.index = None`, so the
disk keeps the full pre-delete contents. -/
def deleteByDocumentId (s : Store) (document_id : Int) : Store :=
  let new_documents := s.mem.documents.filter (fun d => d.document_id ≠ document_id)
  if new_documents.length = s.mem.documents.length then s
  else saveIndex ⟨initMem, s.disk⟩

/-! ### Retriever call signature and QA orchestrator
(`services/retriever.py`, `services/qa_service.py`) -/

/-- The keyword parameters `Retriever.retrieve` accepts:
`def retrieve(self, question, top_k=5, db=None)`. -/
def retrieveParams : List String := ["question", "top_k", "db"]

/-- The keyword arguments `QAService.ask` passes to `self.retriever.retrieve`. -/
def askRetrieveKwargs : List String := ["question", "top_k", "knowledge_base_id", "db"]

/-- Python keyword-argument binding: calling with a keyword the signature
does not accept raises `TypeError` before the callee body runs; otherwise the
body's outcome is returned. -/
def pyCallKw {α : Type} (fname : String) (params kwargs : List String)
    (body : Except String α) : Except String α :=
  match kwargs.find? (fun k => !params.contains k) with
  | some k => .error ("TypeError: " ++ fname ++ "() got an unexpected keyword argument " ++ k)
  | none => body

/-- The `RetrievedChunk` class of `services/retriever.py` (what `ask` routes
on; `document_id` is an `Int` here, so the `int()` coercions in
`_build_sources` always succeed). -/
structure RChunk where
  chunk_id : Int
  document_id : Int
  file_name : String
  chunk_index : Int
  chunk_text : String
  similarity : ℚ
deriving DecidableEq, Repr

/-- The `SourceDocument` model referenced by `QAService._build_sources`. -/
structure SourceDocument where
  document_id : Int
  file_name : String
  chunk_index : Int
  similarity : ℚ
deriving DecidableEq, Repr

/-- An LLM reply (`LLMService.chat` output): generated text and token
counts. -/
structure LLMResp where
  content : String
  prompt_tokens : Option Int
  completion_tokens : Option Int
  total_tokens : Option Int
deriving DecidableEq, Repr

/-- The response `QAService.ask` builds. -/
structure QAResponse where
  request_id : String
  answer : String
  sources : List SourceDocument
  answer_source : String
deriving DecidableEq, Repr

/-- A row of the QA log (`_log_qa` / `_log_qa_error`). -/
structure QALogEntry where
  request_id : String
  question : String
  answer : Option String
  error_message : Option String
deriving DecidableEq, Repr

/-- The disclaimer prefix used in the no-knowledge-base branch of
`QAService.ask`. -/
def noAnswerHint : String := "知识库中没有找到相关的答案，以下是可以借鉴的答案"

/-- `max(chunk.similarity for chunk in retrieved_chunks)`; only evaluated
under the `if retrieved_chunks:` guard, so the `[]` case is arbitrary. -/
def maxSimilarity : List RChunk → ℚ
  | [] => 0
  | c :: rest => rest.foldl (fun acc x => max acc x.similarity) c.similarity

/-- Deduplication loop of `QAService._build_sources` (`seen` is the set of
already-emitted document ids; first occurrence wins, order preserved). -/
def buildSourcesGo : List RChunk → List Int → List SourceDocument
  | [], _ => []
  | c :: rest, seen =>
    if c.document_id ∈ seen then buildSourcesGo rest seen
    else ⟨c.document_id, c.file_name, c.chunk_index, c.similarity⟩
      :: buildSourcesGo rest (c.document_id :: seen)

/-- `QAService._build_sources`. -/
def buildSources (chunks : List RChunk) : List SourceDocument :=
  buildSourcesGo chunks []

/-- Lines 94–168 of `QAService.ask` — the routing and response construction
that runs once the retrieval call has produced `chunks`: decide
knowledge-base vs plain-LLM by comparing the best similarity against the
threshold, build sources only in the knowledge-base branch, prefix the answer
with the disclaimer otherwise. -/
def askCore (threshold : ℚ) (request_id : String) (chunks : List RChunk)
    (llm : LLMResp) : QAResponse :=
  let use_knowledge_base : Bool := !chunks.isEmpty && decide (threshold ≤ maxSimilarity chunks)
  let sources := if use_knowledge_base then buildSources chunks else []
  let answer_source := if use_knowledge_base then "knowledge_base" else "llm"
  let prompt_hint := if use_knowledge_base then "" else noAnswerHint
  let final_answer := if prompt_hint ≠ "" then prompt_hint ++ "\n\n" ++ llm.content
    else llm.content
  ⟨request_id, final_answer, sources, answer_source⟩

/-- `QAService.ask`: the `try` block's first statement calls
`self.retriever.retrieve(question=..., top_k=..., knowledge_base_id=...,
db=...)`; what the retrieval would return is the `retrieveBody` parameter.
On any exception the `except` branch logs the question with the error and
re-raises.  On success the response is built by `askCore` and a success row
is logged. -/
def ask (threshold : ℚ) (request_id question : String)
    (retrieveBody : Except String (List RChunk)) (llm : LLMResp) :
    Except String QAResponse × List QALogEntry :=
  match pyCallKw "retrieve" retrieveParams askRetrieveKwargs retrieveBody with
  | .error e => (.error e, [⟨request_id, question, none, some e⟩])
  | .ok chunks =>
    let resp := askCore threshold request_id chunks llm
    (.ok resp, [⟨request_id, question, some llm.content, none⟩])

/-! ### Knowledge builder (`services/knowledge_builder.py`) -/

/-- A `Document` row as the builder reads and writes it. -/
structure DocRow where
  id : Int
  status : String
  chunk_count : Option Int
  error_message : Option String
deriving DecidableEq, Repr

/-- A `Chunk` row written by the builder. -/
structure ChunkRow where
  document_id : Int
  chunk_index : Nat
  chunk_text : List Char
deriving DecidableEq, Repr

/-- The relational store as the builder touches it. -/
structure DB where
  documents : List DocRow
  chunks : List ChunkRow
deriving DecidableEq, Repr

/-- Update the first row with the given id (`query(...).first()`); fields are
written only when the corresponding argument is not None, mirroring
`_update_document_status`. -/
def updateRows (document_id : Int) (status : String)
    (chunk_count : Option Int) (error_message : Option String) :
    List DocRow → List DocRow
  | [] => []
  | doc :: rest =>
    if doc.id = document_id then
      { doc with
        status := status
        chunk_count := match chunk_count with
          | some c => some c
          | none => doc.chunk_count
        error_message := match error_message with
          | some m => some m
          | none => doc.error_message } :: rest
    else doc :: updateRows document_id status chunk_count error_message rest

/-- `KnowledgeBuilder._update_document_status` (a no-op when the document row
does not exist). -/
def updateDocumentStatus (db : DB) (document_id : Int) (status : String)
    (chunk_count : Option Int) (error_message : Option String) : DB :=
  { db with documents := updateRows document_id status chunk_count error_message db.documents }

/-- `db.query(Document).filter(Document.id == id).first()`. -/
def findDoc (db : DB) (document_id : Int) : Option DocRow :=
  db.documents.find? (fun d => d.id = document_id)

/-- The chunk rows the `for chunk in chunks` loop inserts. -/
def buildChunkRows (document_id : Int) (chunks : List Chunk) : List ChunkRow :=
  chunks.map (fun c => ⟨document_id, c.index, c.text⟩)

/-- `KnowledgeBuilder.build_knowledge_from_content`, with the external steps
as explicit outcome parameters: `parseResult` is the parser stage (covering
the unsupported-type `ValueError` and `parser.parse` exceptions),
`embedBatch` the embedding service call, `addVectors` the vector-store
insertion.  The bodies mirror the source: mark `processing`; raise
`ValueError` on empty text; write one chunk row per chunk; batch-embed; the
post-embedding log line indexes `embeddings[0]` and raises `IndexError` when
there are no embeddings; add to the vector store; mark `completed` with the
chunk count.  Any exception lands in the `except` branch: mark `failed` with
the exception message, commit, return False — nothing written earlier is
rolled back. -/
def buildKnowledgeFromContent (cfg : ChunkerConfig) (db : DB) (document_id : Int)
    (parseResult : Except String (List Char))
    (embedBatch : List (List Char) → Except String (List (List ℚ)))
    (addVectors : Except String Unit) : Bool × DB :=
  let db := updateDocumentStatus db document_id "processing" none none
  match parseResult with
  | .error m => (false, updateDocumentStatus db document_id "failed" none (some m))
  | .ok text =>
    if text = [] then
      (false, updateDocumentStatus db document_id "failed" none
        (some "文档解析失败或内容为空"))
    else
      let chunks := chunk cfg text
      let db := { db with chunks := db.chunks ++ buildChunkRows document_id chunks }
      match embedBatch (chunks.map (fun c => c.text)) with
      | .error m => (false, updateDocumentStatus db document_id "failed" none (some m))
      | .ok embeddings =>
        if embeddings = [] then
          (false, updateDocumentStatus db document_id "failed" none
            (some "list index out of range"))
        else
          match addVectors with
          | .error m => (false, updateDocumentStatus db document_id "failed" none (some m))
          | .ok _ =>
            (true, updateDocumentStatus db document_id "completed"
              (some (Int.ofNat chunks.length)) none)

/-! ### Statements of spec claims, and concrete instances -/

/-- `True` on an unreadable companion file (a read of it raises). -/
def pfileBad {α : Type} : PFile α → Bool
  | .corrupt _ => true
  | _ => false

/-- The id invariant claimed for the metadata list: ids are exactly the
insertion positions `0, 1, …`. -/
def idsOk (m : MemState) : Prop :=
  m.documents.map (fun d => d.id) = List.range m.documents.length

/-- The character-split claim as the spec states it: at every cut point that
is not at the end of the text, whenever a sentence-ending mark or newline
occurs within half the configured chunk size below the fixed cut point, the
cut is placed immediately after such a mark inside that window. -/
def charSplitClaim : Prop :=
  ∀ (cfg : ChunkerConfig) (text : List Char) (start : Nat),
    start + cfg.chunk_size < text.length →
    ∀ i, start + cfg.chunk_size / 2 < i → i ≤ start + cfg.chunk_size →
      sentencePunct (text.getD i ' ') = true →
      sentencePunct (text.getD (cutEnd cfg text start - 1) ' ') = true ∧
      start + cfg.chunk_size / 2 < cutEnd cfg text start - 1

/-- The batching claim as the spec states it: for every model whose `encode`
is length-preserving, `embed_batch` returns one vector per input text. -/
def embedBatchLengthClaim : Prop :=
  ∀ (m : EmbeddingModelSpec), (∀ ts, (m.encode ts).length = ts.length) →
    ∀ texts, (embed_batch m texts).length = texts.length

/-- The repository's default chunker configuration
(`chunk_size=500, chunk_overlap=50, separator="\n\n"`). -/
def cfgDefault : ChunkerConfig := ⟨500, 50, ['\n', '\n']⟩

/-- Configuration exhibiting the 100-character cap of the backward scan
(`chunk_size // 2 = 101 > 100`). -/
def cfgC8 : ChunkerConfig := ⟨202, 50, ['\n', '\n']⟩

/-- 210 characters, all `a` except a period at position 102: inside the
half-chunk window of the first cut point (positions 102…202) but below the
100-character cap (positions 103…202). -/
def txtC8 : List Char := List.replicate 102 'a' ++ '.' :: List.replicate 107 'a'

/-- A tiny configuration for the character-split witness. -/
def cfgSmall : ChunkerConfig := ⟨4, 1, ['\n', '\n']⟩

/-- A model with a length-preserving `encode`, for concrete evaluation. -/
def mC3 : EmbeddingModelSpec := ⟨2, fun ts => ts.map (fun _ => [1, 1])⟩

/-- A freshly initialized store (no persisted files yet). -/
def emptyStore : Store := ⟨initMem, ⟨.absent, .absent⟩⟩

/-- One chunk of document 1. -/
def docInA : VDocIn := ⟨1, 0, "hello"⟩

/-- One chunk of document 2. -/
def docInB : VDocIn := ⟨2, 0, "world"⟩

/-- The store after indexing document 1's single chunk. -/
def storeA : Store := addDocuments id emptyStore [docInA] [[1]]

/-- `storeA` after `delete_by_document_id(1)`. -/
def storeADel : Store := deleteByDocumentId storeA 1

/-- `storeADel` after indexing document 2's single chunk. -/
def storeB : Store := addDocuments id storeADel [docInB] [[1]]

/-- A retrieved chunk of document 7 with the given similarity. -/
def rchunkSim (sim : ℚ) : RChunk := ⟨0, 7, "f.txt", 0, "text", sim⟩

/-- A fixed LLM reply for concrete QA evaluations. -/
def llmW : LLMResp := ⟨"ans", none, none, none⟩

/-- What a failed build must leave behind: `False` returned, the document's
row marked `failed` carrying the exception message (its chunk count
untouched), and the chunk rows grown by exactly the rows written before the
failure — nothing rolled back. -/
def buildFailedSpec (cfg : ChunkerConfig) (db : DB) (document_id : Int)
    (pr : Except String (List Char))
    (eb : List (List Char) → Except String (List (List ℚ)))
    (av : Except String Unit) (m : String) (written : List ChunkRow) : Prop :=
  (buildKnowledgeFromContent cfg db document_id pr eb av).1 = false ∧
  (∀ orig, findDoc db document_id = some orig →
    findDoc (buildKnowledgeFromContent cfg db document_id pr eb av).2 document_id =
      some ⟨orig.id, "failed", orig.chunk_count, some m⟩) ∧
  (buildKnowledgeFromContent cfg db document_id pr eb av).2.chunks = db.chunks ++ written

/-- A one-document database for the builder witness. -/
def dbW : DB := ⟨[⟨5, "pending", none, none⟩], []⟩

/-- An embedding stage that succeeds with one vector per text. -/
def ebW : List (List Char) → Except String (List (List ℚ)) :=
  fun ts => .ok (ts.map (fun _ => [1]))

/-! ### Lemmas: cleaning only shrinks text -/

theorem length_dropWhile_le (p : Char → Bool) (l : List Char) :
    (l.dropWhile p).length ≤ l.length := by
  induction l with
  | nil => simp
  | cons c rest ih =>
    by_cases h : p c
    · simp only [List.dropWhile_cons, if_pos h, List.length_cons]
      omega
    · simp [List.dropWhile_cons, h]

theorem pyStrip_length_le (l : List Char) : (pyStrip l).length ≤ l.length := by
  unfold pyStrip
  have h1 := length_dropWhile_le pySpace l
  have h2 := length_dropWhile_le pySpace (l.dropWhile pySpace).reverse
  simp only [List.length_reverse] at *
  omega

theorem collapseNLAux_length_le (run : Nat) (l : List Char) :
    (collapseNLAux run l).length ≤ l.length := by
  induction l generalizing run with
  | nil => simp [collapseNLAux]
  | cons c rest ih =>
    by_cases hc : c = '\n'
    · by_cases hr : run ≥ 2 <;> simp [collapseNLAux, hc, hr] <;>
        have := ih (run + 1) <;> omega
    · simp only [collapseNLAux, if_neg hc, List.length_cons]
      have := ih 0
      omega

theorem collapseNewlines_length_le (l : List Char) :
    (collapseNewlines l).length ≤ l.length :=
  collapseNLAux_length_le 0 l

theorem intercalate_cons_cons (s a b : List Char) (t : List (List Char)) :
    List.intercalate s (a :: b :: t) = a ++ s ++ List.intercalate s (b :: t) := by
  simp [List.intercalate, List.intersperse]

theorem length_intercalate_map_pyStrip (parts : List (List Char)) :
    (List.intercalate ['\n'] (parts.map pyStrip)).length ≤
      (List.intercalate ['\n'] parts).length := by
  induction parts with
  | nil => simp
  | cons a t ih =>
    cases t with
    | nil =>
      simpa [List.intercalate, List.intersperse] using pyStrip_length_le a
    | cons b t2 =>
      rw [List.map_cons, List.map_cons, intercalate_cons_cons, intercalate_cons_cons]
      rw [← List.map_cons]
      have ha := pyStrip_length_le a
      simp only [List.length_append] at *
      omega

theorem cleanText_length_le (l : List Char) : (cleanText l).length ≤ l.length := by
  have h3 : List.intercalate ['\n'] ((collapseNewlines l).splitOn '\n') =
      collapseNewlines l := List.intercalate_splitOn (collapseNewlines l) '\n'
  calc (cleanText l).length
      ≤ (List.intercalate ['\n'] (((collapseNewlines l).splitOn '\n').map pyStrip)).length :=
        pyStrip_length_le _
    _ ≤ (List.intercalate ['\n'] ((collapseNewlines l).splitOn '\n')).length :=
        length_intercalate_map_pyStrip _
    _ = (collapseNewlines l).length := by rw [h3]
    _ ≤ l.length := collapseNewlines_length_le l

/-! ### C7 — short input yields a single cleaned chunk -/

/-- C7: for empty or whitespace-only input `chunk` returns the empty
sequence; for any other input no longer than the configured chunk size it
returns exactly one chunk — the cleaned form of the input, index 0, offsets
covering the whole cleaned text. -/
theorem chunk_single_of_short (cfg : ChunkerConfig) (t : List Char) :
    (pyStrip t = [] → chunk cfg t = []) ∧
    (pyStrip t ≠ [] → t.length ≤ cfg.chunk_size →
      chunk cfg t = [⟨0, cleanText t, 0, (cleanText t).length⟩]) := by
  constructor
  · intro h
    unfold chunk
    simp [h]
  · intro h hlen
    have ht : t ≠ [] := by
      intro h0
      exact h (by simp [h0, pyStrip])
    have hclean : (cleanText t).length ≤ cfg.chunk_size :=
      le_trans (cleanText_length_le t) hlen
    unfold chunk
    simp [ht, h, hclean]

/-- C7 witness: a concrete short text with messy whitespace. -/
theorem chunk_single_of_short_witness :
    chunk cfgDefault "  hi  \n\n\n\n  there  ".toList =
      [⟨0, "hi\n\nthere".toList, 0, 9⟩] := by
  have h := (chunk_single_of_short cfgDefault "  hi  \n\n\n\n  there  ".toList).2
    (by decide) (by decide)
  rw [h]
  decide

/-! ### C8 — the backward scan of the character splitter -/

/-- The descending scan returns `none` exactly when no sentence-ending mark
occurs at the scanned positions, and otherwise the highest marked position in
the scanned half-open range. -/
theorem findCutAux_spec (text : List Char) (lo i : Nat) :
    (findCutAux text lo i = none ∧
      ∀ m, lo < m → m ≤ i → sentencePunct (text.getD m ' ') = false) ∨
    (∃ j, findCutAux text lo i = some j ∧ lo < j ∧ j ≤ i ∧
      sentencePunct (text.getD j ' ') = true ∧
      ∀ m, j < m → m ≤ i → sentencePunct (text.getD m ' ') = false) := by
  induction i with
  | zero =>
    left
    exact ⟨rfl, fun m h1 h2 => by omega⟩
  | succ i ih =>
    by_cases hle : i + 1 ≤ lo
    · left
      refine ⟨by simp [findCutAux, hle], fun m h1 h2 => by omega⟩
    · by_cases hp : sentencePunct (text.getD (i + 1) ' ') = true
      · right
        refine ⟨i + 1, ?_, by omega, Nat.le_refl _, hp, fun m h1 h2 => by omega⟩
        unfold findCutAux
        rw [if_neg hle, if_pos hp]
      · have hp' : sentencePunct (text.getD (i + 1) ' ') = false :=
          Bool.not_eq_true _ ▸ (by simpa using hp)
        have hstep : findCutAux text lo (i + 1) = findCutAux text lo i := by
          rw [findCutAux.eq_2, if_neg hle, if_neg hp]
        rcases ih with ⟨hnone, hall⟩ | ⟨j, hsome, hlt, hle2, hpj, hmax⟩
        · left
          refine ⟨hstep.trans hnone, fun m h1 h2 => ?_⟩
          rcases Nat.lt_or_ge m (i + 1) with hm | hm
          · exact hall m h1 (by omega)
          · have : m = i + 1 := by omega
            simpa [this] using hp'
        · right
          refine ⟨j, hstep.trans hsome, hlt, by omega, hpj, fun m h1 h2 => ?_⟩
          rcases Nat.lt_or_ge m (i + 1) with hm | hm
          · exact hmax m h1 (by omega)
          · have : m = i + 1 := by omega
            simpa [this] using hp'

/-- C8 (amended): at a cut point `start` with `start + chunk_size` strictly
inside the text, the scan window is
`(max(start + chunk_size / 2, start + chunk_size − 100), start + chunk_size]`
— backward from the fixed cut point up to half the chunk size **but at most
100 characters**.  If the window holds no sentence-ending mark the cut is at
the fixed width; otherwise the cut is immediately after the highest marked
position of the window. -/
theorem cutEnd_spec (cfg : ChunkerConfig) (text : List Char) (start : Nat)
    (h : start + cfg.chunk_size < text.length) :
    (cutEnd cfg text start = start + cfg.chunk_size ∧
      ∀ m, scanLow cfg start (start + cfg.chunk_size) < m →
        m ≤ start + cfg.chunk_size → sentencePunct (text.getD m ' ') = false) ∨
    (∃ j, cutEnd cfg text start = j + 1 ∧
      scanLow cfg start (start + cfg.chunk_size) < j ∧
      j ≤ start + cfg.chunk_size ∧
      sentencePunct (text.getD j ' ') = true ∧
      ∀ m, j < m → m ≤ start + cfg.chunk_size →
        sentencePunct (text.getD m ' ') = false) := by
  rcases findCutAux_spec text (scanLow cfg start (start + cfg.chunk_size))
      (start + cfg.chunk_size) with ⟨hnone, hall⟩ | ⟨j, hsome, h1, h2, h3, h4⟩
  · left
    refine ⟨?_, hall⟩
    unfold cutEnd
    simp [h, hnone]
  · right
    refine ⟨j, ?_, h1, h2, h3, h4⟩
    unfold cutEnd
    simp [h, hsome]

set_option maxRecDepth 100000 in
/-- C8 counterexample: with `chunk_size = 202` the scan stops 100 characters
below the cut point, so the period at position 102 — inside the half-chunk
window (positions 102…202) — is never seen and the text is cut mid-sentence
at the fixed width 202. -/
theorem charSplitClaim_false : ¬ charSplitClaim := by
  intro h
  have h2 := h cfgC8 txtC8 0 (by decide) 102 (by decide) (by decide) (by decide)
  exact absurd h2.1 (by decide)

/-- C8 witness for the amended characterization: `chunk_size = 4` on
`"abc.e"`, where the period at position 3 lies inside the scan window. -/
theorem cutEnd_spec_witness :
    0 + cfgSmall.chunk_size < "abc.e".toList.length ∧
    ((cutEnd cfgSmall "abc.e".toList 0 = 0 + cfgSmall.chunk_size ∧
      ∀ m, scanLow cfgSmall 0 (0 + cfgSmall.chunk_size) < m →
        m ≤ 0 + cfgSmall.chunk_size →
        sentencePunct ("abc.e".toList.getD m ' ') = false) ∨
    (∃ j, cutEnd cfgSmall "abc.e".toList 0 = j + 1 ∧
      scanLow cfgSmall 0 (0 + cfgSmall.chunk_size) < j ∧
      j ≤ 0 + cfgSmall.chunk_size ∧
      sentencePunct ("abc.e".toList.getD j ' ') = true ∧
      ∀ m, j < m → m ≤ 0 + cfgSmall.chunk_size →
        sentencePunct ("abc.e".toList.getD m ' ') = false)) :=
  ⟨by decide, cutEnd_spec cfgSmall "abc.e".toList 0 (by decide)⟩

/-! ### Vector store lemmas -/

theorem saveIndex_mem (s : Store) : (saveIndex s).mem = s.mem := by
  unfold saveIndex
  split <;> rfl

theorem deleteByDocumentId_disk (s : Store) (document_id : Int) :
    (deleteByDocumentId s document_id).disk = s.disk := by
  unfold deleteByDocumentId
  dsimp only
  by_cases hc : (List.filter (fun d => decide (d.document_id ≠ document_id)) s.mem.documents).length =
      s.mem.documents.length
  · rw [if_pos hc]
  · rw [if_neg hc]
    rfl

/-! ### C6 — deletion leaves every search result of other documents intact -/

/-- C6: a search after `delete_by_document_id(d)` returns exactly the results
a search before it would return (for every query, every `k`, and every
normalization): `search` reloads from disk, the delete never rewrites the
disk (its save step is skipped because `_init_index` has just cleared
`self.index`), so entries of documents other than `d` are retrieved
afterwards with unchanged metadata.  No entry — of `d` or of any other
document — is affected. -/
theorem delete_search_frame (normalize : Vec → Vec) (s : Store)
    (document_id : Int) (q : Vec) (k : Nat) :
    (search normalize (deleteByDocumentId s document_id) q k).1 =
      (search normalize s q k).1 := by
  unfold search
  rw [deleteByDocumentId_disk]

/-! ### C1 — deletion does not remove entries from a subsequent search -/

/-- C1 is violated by the code: document 1's single entry is persisted by
`add_documents`; `delete_by_document_id(1)` clears only the in-memory state
(`new_documents` is discarded and the save step is skipped because
`self.index` is `None`); the next `search` reloads the stale files and
returns document 1's entry with similarity 1.  The second conjunct shows the
delete really ran its deletion branch (memory was re-initialized). -/
theorem delete_then_search_returns_deleted :
    (search id storeADel [1] 5).1.map (fun r => r.document_id) = [1] ∧
    storeADel.mem = initMem ∧
    (search id storeADel [1] 5).1.map (fun r => r.chunk_text) = ["hello"] := by
  decide

/-! ### C4 — entry ids -/

/-- C4 counterexample: before the delete the only entry (document 1's) has
id 0; after `delete_by_document_id(1)` the next `add_documents` assigns id 0
again — to document 2's entry.  Ids are reused after a deletion. -/
theorem entry_id_reused_after_delete :
    (storeA.mem.documents.map (fun d => (d.id, d.document_id))) = [(0, 1)] ∧
    (storeB.mem.documents.map (fun d => (d.id, d.document_id))) = [(0, 2)] := by
  decide

theorem withIds_map_id (start : Nat) (l : List VDocIn) :
    (withIds start l).map (fun d => d.id) = List.range' start l.length := by
  induction l generalizing start with
  | nil => simp [withIds]
  | cons d rest ih => simp [withIds, List.range'_succ, ih]

theorem withIds_length (start : Nat) (l : List VDocIn) :
    (withIds start l).length = l.length := by
  induction l generalizing start with
  | nil => rfl
  | cons d rest ih => simp [withIds, ih]

/-- C4 (amended): as long as only additions occur, each `add_documents`
extends the metadata ids by `len, len+1, …` — insertion order, 0-based and
monotonically increasing, never reusing an id.  (After a deletion the
in-memory list is reset and ids restart from 0, as the counterexample
shows.) -/
theorem addDocuments_ids (normalize : Vec → Vec) (s : Store)
    (docs : List VDocIn) (embs : List Vec)
    (h : idsOk s.mem) (hd : docs ≠ []) (he : embs ≠ []) :
    idsOk (addDocuments normalize s docs embs).mem ∧
    (addDocuments normalize s docs embs).mem.documents.map (fun d => d.id) =
      List.range (s.mem.documents.length + docs.length) := by
  have hmap : (addDocuments normalize s docs embs).mem.documents.map (fun d => d.id) =
      List.range (s.mem.documents.length + docs.length) := by
    unfold addDocuments
    rw [if_neg (by simp [hd, he])]
    rw [saveIndex_mem]
    simp only [List.map_append, withIds_map_id]
    rw [idsOk] at h
    rw [h, List.range_eq_range', List.range_eq_range']
    rw [Nat.add_comm s.mem.documents.length docs.length]
    have := List.range'_append 0 s.mem.documents.length docs.length 1
    simpa using this
  refine ⟨?_, hmap⟩
  rw [idsOk, hmap]
  congr 1
  have hlen : (addDocuments normalize s docs embs).mem.documents.length =
      s.mem.documents.length + docs.length := by
    unfold addDocuments
    rw [if_neg (by simp [hd, he])]
    rw [saveIndex_mem]
    simp [withIds_length]
  rw [hlen]

/-- C4 amended-theorem witness: adding two entries to the fresh store assigns
ids 0 and 1. -/
theorem addDocuments_ids_witness :
    idsOk (addDocuments id emptyStore [docInA, docInB] [[1], [2]]).mem ∧
    (addDocuments id emptyStore [docInA, docInB] [[1], [2]]).mem.documents.map
        (fun d => d.id) =
      List.range (emptyStore.mem.documents.length + [docInA, docInB].length) :=
  addDocuments_ids id emptyStore [docInA, docInB] [[1], [2]]
    (by simp [idsOk, emptyStore, initMem]) (by decide) (by decide)

/-! ### C9 — corrupt persisted state falls back to an empty index -/

/-- C9: when both companion files are present but either is zero bytes or
fails to deserialize, `_load_index` never lets the failure escape — it
reinitializes the empty in-memory state, and any subsequent search (which
reloads from the same files) returns the empty list instead of crashing. -/
theorem load_corrupt_fallback (d : Disk)
    (hp : pfilePresent d.indexFile = true ∧ pfilePresent d.docsFile = true)
    (hb : pfileBad d.indexFile = true ∨ pfileBad d.docsFile = true) :
    loadIndex d = initMem ∧
    ∀ (normalize : Vec → Vec) (m : MemState) (q : Vec) (k : Nat),
      (search normalize ⟨m, d⟩ q k).1 = [] := by
  have hload : loadIndex d = initMem := by
    rcases hx : d.indexFile with _ | z | v <;>
      rcases hy : d.docsFile with _ | z2 | v2 <;>
      simp_all [loadIndex, pfilePresent, pfileBad, pfileZeroSize, pfileRead]
  refine ⟨hload, fun normalize m q k => ?_⟩
  unfold search
  simp only
  rw [hload]
  rfl

/-- C9 witness: a zero-byte index file next to a readable metadata file. -/
theorem load_corrupt_fallback_witness :
    loadIndex ⟨.corrupt true, .good []⟩ = initMem ∧
    (search id ⟨initMem, ⟨.corrupt true, .good []⟩⟩ [1] 5).1 = [] := by
  have h := load_corrupt_fallback ⟨.corrupt true, .good []⟩
    (by decide) (Or.inl (by decide))
  exact ⟨h.1, h.2 id initMem [1] 5⟩

/-! ### C2 — every `ask` dies on the retrieve call signature -/

/-- C2: `QAService.ask` passes `knowledge_base_id=` to `Retriever.retrieve`,
whose signature does not accept it, so keyword binding raises `TypeError`
before the retrieval body runs (the result does not depend on
`retrieveBody`): no request returns an answer, and every attempt lands in
the error-logging branch with the question and the error, answer `None`. -/
theorem ask_always_type_error (threshold : ℚ) (request_id question : String)
    (retrieveBody : Except String (List RChunk)) (llm : LLMResp) :
    ask threshold request_id question retrieveBody llm =
      (.error "TypeError: retrieve() got an unexpected keyword argument knowledge_base_id",
       [⟨request_id, question, none,
         some "TypeError: retrieve() got an unexpected keyword argument knowledge_base_id"⟩]) := by
  rfl

/-! ### C5 — threshold routing of the QA orchestrator -/

theorem buildSourcesGo_document_ids (l : List RChunk) :
    ∀ seen s, s ∈ buildSourcesGo l seen →
      s.document_id ∈ l.map (fun c => c.document_id) := by
  induction l with
  | nil => intro seen s hs; simp [buildSourcesGo] at hs
  | cons c rest ih =>
    intro seen s hs
    by_cases hc : c.document_id ∈ seen
    · simp only [buildSourcesGo, if_pos hc] at hs
      simp only [List.map_cons, List.mem_cons]
      exact Or.inr (ih seen s hs)
    · simp only [buildSourcesGo, if_neg hc, List.mem_cons] at hs
      rcases hs with rfl | hs
      · simp
      · simp only [List.map_cons, List.mem_cons]
        exact Or.inr (ih _ s hs)

theorem buildSources_ne_nil (c : RChunk) (rest : List RChunk) :
    buildSources (c :: rest) ≠ [] := by
  simp [buildSources, buildSourcesGo]

/-- C5: with threshold `t`, an empty retrieval or one whose best similarity
is strictly below `t` routes to the ungrounded branch — empty `sources`,
answer prefixed with the no-relevant-content disclaimer, `answer_source`
"llm"; otherwise (best similarity ≥ `t`) the grounded branch — non-empty
`sources` drawn only from documents appearing in the retrieved top-k,
untouched answer, `answer_source` "knowledge_base". -/
theorem qa_threshold_routing (threshold : ℚ) (request_id : String)
    (chunks : List RChunk) (llm : LLMResp) :
    ((chunks = [] ∨ maxSimilarity chunks < threshold) →
      (askCore threshold request_id chunks llm).sources = [] ∧
      (askCore threshold request_id chunks llm).answer =
        noAnswerHint ++ "\n\n" ++ llm.content ∧
      (askCore threshold request_id chunks llm).answer_source = "llm") ∧
    (chunks ≠ [] → threshold ≤ maxSimilarity chunks →
      (askCore threshold request_id chunks llm).sources ≠ [] ∧
      (∀ s ∈ (askCore threshold request_id chunks llm).sources,
        s.document_id ∈ chunks.map (fun c => c.document_id)) ∧
      (askCore threshold request_id chunks llm).answer = llm.content ∧
      (askCore threshold request_id chunks llm).answer_source = "knowledge_base") := by
  constructor
  · intro h
    have hkb : (!chunks.isEmpty && decide (threshold ≤ maxSimilarity chunks)) = false := by
      rcases h with rfl | hlt
      · rfl
      · simp [not_le.mpr hlt]
    unfold askCore
    rw [hkb]
    exact ⟨rfl, rfl, rfl⟩
  · intro hne hge
    have hkb : (!chunks.isEmpty && decide (threshold ≤ maxSimilarity chunks)) = true := by
      simp [hne, hge]
    unfold askCore
    rw [hkb]
    cases chunks with
    | nil => exact absurd rfl hne
    | cons c rest =>
      exact ⟨buildSources_ne_nil c rest,
        fun s hs => buildSourcesGo_document_ids (c :: rest) [] s hs, rfl, rfl⟩

/-- C5 witness: with the configured threshold 0.3, a best similarity of 0.29
routes ungrounded (empty sources, disclaimer-prefixed answer) and a best
similarity of 0.31 routes grounded (non-empty sources from the retrieved
documents). -/
theorem qa_threshold_routing_witness :
    ((askCore (3/10) "r1" [rchunkSim (29/100)] llmW).sources = [] ∧
      (askCore (3/10) "r1" [rchunkSim (29/100)] llmW).answer =
        noAnswerHint ++ "\n\n" ++ llmW.content ∧
      (askCore (3/10) "r1" [rchunkSim (29/100)] llmW).answer_source = "llm") ∧
    ((askCore (3/10) "r2" [rchunkSim (31/100)] llmW).sources ≠ [] ∧
      (∀ s ∈ (askCore (3/10) "r2" [rchunkSim (31/100)] llmW).sources,
        s.document_id ∈ [rchunkSim (31/100)].map (fun c => c.document_id)) ∧
      (askCore (3/10) "r2" [rchunkSim (31/100)] llmW).answer = llmW.content ∧
      (askCore (3/10) "r2" [rchunkSim (31/100)] llmW).answer_source = "knowledge_base") :=
  ⟨(qa_threshold_routing (3/10) "r1" [rchunkSim (29/100)] llmW).1
      (Or.inr (by norm_num [maxSimilarity, rchunkSim])),
   (qa_threshold_routing (3/10) "r2" [rchunkSim (31/100)] llmW).2
      (by simp) (by norm_num [maxSimilarity, rchunkSim])⟩

/-! ### C3 — `embed_batch` length preservation -/

/-- C3 counterexample: a model whose `encode` is length-preserving, applied
to the two-text batch `["a", ""]`, yields a single vector — the blank text is
filtered out and nothing is re-inserted for it, so the output is not aligned
with the input. -/
theorem embedBatchLengthClaim_false : ¬ embedBatchLengthClaim := by
  intro h
  have := h mC3 (fun ts => by simp [mC3]) ["a", ""]
  exact absurd this (by decide)

/-- C3 (amended): `embed_batch` returns `[]` for an empty batch; one zero
vector of the model's dimension per input when every text is blank; and
otherwise one vector per **non-blank** input — blank texts are dropped, so a
batch mixing blank and non-blank texts yields fewer vectors than inputs. -/
theorem embed_batch_spec (m : EmbeddingModelSpec)
    (henc : ∀ ts, (m.encode ts).length = ts.length) (texts : List String) :
    (texts = [] → embed_batch m texts = []) ∧
    (texts ≠ [] → texts.filter (fun t => !(pyBlank t)) = [] →
      embed_batch m texts = List.replicate texts.length (List.replicate m.dimension 0)) ∧
    (texts ≠ [] → texts.filter (fun t => !(pyBlank t)) ≠ [] →
      (embed_batch m texts).length = (texts.filter (fun t => !(pyBlank t))).length) := by
  refine ⟨fun h => ?_, fun h1 h2 => ?_, fun h1 h2 => ?_⟩
  · simp [embed_batch, h]
  · unfold embed_batch
    rw [if_neg h1]
    simp only [h2]
    rfl
  · unfold embed_batch
    rw [if_neg h1]
    simp only [if_neg h2]
    exact henc _

/-- C3 amended-theorem witness: on the mixed batch `["a", ""]` the output has
one vector — the length of the filtered batch, not of the input. -/
theorem embed_batch_spec_witness :
    (embed_batch mC3 ["a", ""]).length =
      ((["a", ""] : List String).filter (fun t => !(pyBlank t))).length :=
  (embed_batch_spec mC3 (fun ts => by simp [mC3]) ["a", ""]).2.2
    (by decide) (by decide)

/-! ### C10 — the builder's failure path -/

theorem find_updateRows (document_id : Int) (status : String)
    (cc : Option Int) (em : Option String) (rows : List DocRow) :
    (updateRows document_id status cc em rows).find? (fun d => d.id = document_id) =
      (rows.find? (fun d => d.id = document_id)).map (fun doc =>
        { doc with
          status := status
          chunk_count := match cc with
            | some c => some c
            | none => doc.chunk_count
          error_message := match em with
            | some m => some m
            | none => doc.error_message }) := by
  induction rows with
  | nil => rfl
  | cons doc rest ih =>
    by_cases hid : doc.id = document_id
    · simp [updateRows, hid, List.find?_cons_of_pos]
    · simp only [updateRows, if_neg hid]
      rw [List.find?_cons_of_neg, List.find?_cons_of_neg]
      · exact ih
      · simpa using hid
      · simpa using hid

theorem findDoc_updateDocumentStatus (db : DB) (document_id : Int)
    (status : String) (cc : Option Int) (em : Option String) :
    findDoc (updateDocumentStatus db document_id status cc em) document_id =
      (findDoc db document_id).map (fun doc =>
        { doc with
          status := status
          chunk_count := match cc with
            | some c => some c
            | none => doc.chunk_count
          error_message := match em with
            | some m => some m
            | none => doc.error_message }) :=
  find_updateRows document_id status cc em db.documents

theorem updateDocumentStatus_chunks (db : DB) (document_id : Int)
    (status : String) (cc : Option Int) (em : Option String) :
    (updateDocumentStatus db document_id status cc em).chunks = db.chunks :=
  rfl

/-- Both status writes of a failing run, composed: the row keeps its id and
chunk count, gets status `failed` and the exception message. -/
theorem findDoc_failed_after (db : DB) (document_id : Int) (m : String) :
    ∀ orig, findDoc db document_id = some orig →
      findDoc (updateDocumentStatus
        (updateDocumentStatus db document_id "processing" none none)
        document_id "failed" none (some m)) document_id =
        some ⟨orig.id, "failed", orig.chunk_count, some m⟩ := by
  intro orig horig
  rw [findDoc_updateDocumentStatus, findDoc_updateDocumentStatus, horig]
  rfl

/-- C10: whenever a step of `build_knowledge_from_content` raises — the
parser (including the unsupported-format `ValueError`), the empty-text
`ValueError`, the embedding call, the `embeddings[0]` log line on an empty
embedding list, or the vector-store insertion — the run returns `False`, the
document's row is marked `failed` with exactly the exception's message (its
`chunk_count` untouched), and the chunk rows already inserted during the
attempt stay in the table, appended to whatever was there before. -/
theorem builder_failure_path (cfg : ChunkerConfig) (db : DB) (document_id : Int)
    (pr : Except String (List Char))
    (eb : List (List Char) → Except String (List (List ℚ)))
    (av : Except String Unit) :
    (∀ m, pr = .error m → buildFailedSpec cfg db document_id pr eb av m []) ∧
    (pr = .ok [] →
      buildFailedSpec cfg db document_id pr eb av "文档解析失败或内容为空" []) ∧
    (∀ t m, pr = .ok t → t ≠ [] →
      eb ((chunk cfg t).map (fun c => c.text)) = .error m →
      buildFailedSpec cfg db document_id pr eb av m
        (buildChunkRows document_id (chunk cfg t))) ∧
    (∀ t, pr = .ok t → t ≠ [] →
      eb ((chunk cfg t).map (fun c => c.text)) = .ok [] →
      buildFailedSpec cfg db document_id pr eb av "list index out of range"
        (buildChunkRows document_id (chunk cfg t))) ∧
    (∀ t es m, pr = .ok t → t ≠ [] →
      eb ((chunk cfg t).map (fun c => c.text)) = .ok es → es ≠ [] →
      av = .error m →
      buildFailedSpec cfg db document_id pr eb av m
        (buildChunkRows document_id (chunk cfg t))) := by
  refine ⟨?_, ?_, ?_, ?_, ?_⟩
  · intro m hpr
    subst hpr
    unfold buildFailedSpec buildKnowledgeFromContent
    exact ⟨rfl, fun orig horig => findDoc_failed_after db document_id m orig horig,
      by simp [updateDocumentStatus_chunks]⟩
  · intro hpr
    subst hpr
    unfold buildFailedSpec buildKnowledgeFromContent
    exact ⟨rfl, fun orig horig => findDoc_failed_after db document_id _ orig horig,
      by simp [updateDocumentStatus_chunks]⟩
  · intro t m hpr ht heb
    subst hpr
    unfold buildFailedSpec buildKnowledgeFromContent
    dsimp only
    rw [if_neg ht]
    rw [heb]
    refine ⟨rfl, fun orig horig => ?_, ?_⟩
    · exact findDoc_failed_after _ document_id m orig horig
    · simp [updateDocumentStatus_chunks]
  · intro t hpr ht heb
    subst hpr
    unfold buildFailedSpec buildKnowledgeFromContent
    dsimp only
    rw [if_neg ht]
    rw [heb]
    refine ⟨rfl, fun orig horig => ?_, ?_⟩
    · exact findDoc_failed_after _ document_id _ orig horig
    · simp [updateDocumentStatus_chunks]
  · intro t es m hpr ht heb hes hav
    subst hpr
    subst hav
    unfold buildFailedSpec buildKnowledgeFromContent
    dsimp only
    rw [if_neg ht]
    rw [heb]
    dsimp only
    rw [if_neg hes]
    refine ⟨rfl, fun orig horig => ?_, ?_⟩
    · exact findDoc_failed_after _ document_id m orig horig
    · simp [updateDocumentStatus_chunks]

/-- C10 witness: a one-document database whose parse stage raises `boom` —
the run returns `False`, the row is `failed` with message `boom`, and no
chunk row was written. -/
theorem builder_failure_path_witness :
    (buildKnowledgeFromContent cfgDefault dbW 5 (.error "boom") ebW (.ok ())).1 = false ∧
    findDoc (buildKnowledgeFromContent cfgDefault dbW 5 (.error "boom") ebW (.ok ())).2 5 =
      some ⟨5, "failed", none, some "boom"⟩ ∧
    (buildKnowledgeFromContent cfgDefault dbW 5 (.error "boom") ebW (.ok ())).2.chunks =
      dbW.chunks ++ [] := by
  have h := (builder_failure_path cfgDefault dbW 5 (.error "boom") ebW (.ok ())).1 "boom" rfl
  exact ⟨h.1, h.2.1 ⟨5, "pending", none, none⟩ rfl, h.2.2⟩

end RagFlow
